import Mathlib

/-!
# ipfs-keygen: the vanity-suffix search of `main.go`

A shallow embedding of `src/main.go`.

* Go strings are byte sequences (`GoString`); string literals of the source are
  written with `bytes`, their UTF-8 encoding.
* The pure pieces (`HasSuffix`, the suffix loop of `worker`, the `-suff`
  handling of `main`/`FastGeneration`, the type switch of `genKey`, the
  hashrate division) are Lean functions.
* The goroutines of `run` (workers, timer goroutine, the `wg.Wait`/`close`
  goroutine and the receiving loop of `run` itself) are a labelled transition
  system: `step` fires one event of one goroutine on a `State`, `exec` fires a
  schedule of events from a state; the runs of `run(cfg)` are the schedules
  that `exec` accepts from `initState cfg`.
* A worker takes two steps per loop iteration: the `select` (which reads the
  context) and the `default:` branch. The branch is one step: between the
  `select` and the end of the branch the worker reads no shared state, and
  its writes (`cancelFunc()`, `saveToFile`, the counter) are applied together.
  Another goroutine may run between the two steps, which is the window in
  which a worker that has passed its `select` does not see a cancellation.
* The channel is unbuffered: a send completes in the step in which `run`
  receives it (`Event.recv`).
-/

namespace IpfsKeygen

/-! ## Strings -/

/-- A Go `string`: an immutable sequence of bytes. -/
abbrev GoString := List UInt8

/-- The bytes of a string literal (Go source files are UTF-8). -/
def bytes (s : String) : GoString := s.toUTF8.data.toList

/-- Go `strings.HasSuffix`:
`len(s) >= len(suffix) && s[len(s)-len(suffix):] == suffix`. -/
def HasSuffix (s suffix : GoString) : Bool :=
  decide (s.length ≥ suffix.length) && (s.drop (s.length - suffix.length) == suffix)

/-- The suffix loop of `worker` (lines 216-237):
`for _, needle := range config.Suffixes { if strings.HasSuffix(s, needle) { ...; return } }`.
The result says whether the loop body's `if` fired for some needle. -/
def matchSuffixes (s : GoString) : List GoString → Bool
  | [] => false
  | needle :: rest => if HasSuffix s needle then true else matchSuffixes s rest

/-! ## Library functions used by `main`, `FastGeneration` and `genKey` -/

/-- The Unicode-table paths of the `strings` package. Only their ASCII fast
paths are transcribed below; on a string with a byte `>= utf8.RuneSelf` Go
falls back to these table-driven functions, which stay parameters. -/
structure UnicodeLib where
  /-- Go `strings.TrimFunc(s, unicode.IsSpace)`. -/
  TrimFuncIsSpace : GoString → GoString
  /-- Go `strings.TrimRightFunc(s, unicode.IsSpace)`. -/
  TrimRightFuncIsSpace : GoString → GoString
  /-- Go `strings.Map(unicode.ToLower, s)`. -/
  MapToLower : GoString → GoString

/-- The table `asciiSpace` of package `strings`: tab, LF, VT, FF, CR, space. -/
def asciiSpace (c : UInt8) : Bool :=
  c == 9 || c == 10 || c == 11 || c == 12 || c == 13 || c == 32

/-- The second loop of `strings.TrimSpace` on `s[start:]`, `stop` counting down. -/
def trimSpaceRight (u : UnicodeLib) (s : GoString) : Nat → GoString
  | 0 => []
  | stop + 1 =>
    let c := s.getD stop 0
    if c ≥ 128 then u.TrimRightFuncIsSpace (s.take (stop + 1))
    else if asciiSpace c then trimSpaceRight u s stop
    else s.take (stop + 1)

/-- Go `strings.TrimSpace`: the first loop skips leading ASCII space, the second
trailing ASCII space; a non-ASCII byte hands over to the Unicode path. -/
def TrimSpace (u : UnicodeLib) : GoString → GoString
  | [] => []
  | c :: rest =>
    if c ≥ 128 then u.TrimFuncIsSpace (c :: rest)
    else if asciiSpace c then TrimSpace u rest
    else trimSpaceRight u (c :: rest) (c :: rest).length

/-- Go `strings.Split(s, sep)` for a one-byte separator: the pieces between the
occurrences of `sep`, one more piece than occurrences. -/
def Split (sep : UInt8) : GoString → List GoString
  | [] => [[]]
  | c :: rest =>
    if c = sep then [] :: Split sep rest
    else
      match Split sep rest with
      | [] => [[c]]
      | p :: ps => (c :: p) :: ps

/-- Go `strings.ToLower`: an all-ASCII string has `A`-`Z` moved to `a`-`z`;
any other string goes through `strings.Map(unicode.ToLower, s)`. -/
def ToLower (u : UnicodeLib) (s : GoString) : GoString :=
  if s.all (fun c => c < 128) then
    s.map (fun c => if 65 ≤ c ∧ c ≤ 90 then c + 32 else c)
  else u.MapToLower s

/-! ## `Config`, `Result`, `NewConfig` (lines 160-179) -/

/-- Go `type Config struct` (line 160). `Timeout` is a `time.Duration`, an `int64`
count of nanoseconds. -/
structure Config where
  NumWorkers : Int
  Suffixes : List GoString
  Timeout : Int
deriving DecidableEq

/-- Go `type Result struct` (line 166). -/
structure Result where
  Found : Bool
  String : GoString
  WorkerID : Int
  Cancelled : Bool
deriving DecidableEq

/-- Go `func NewConfig` (line 173); `numCPU` is `runtime.NumCPU()`. -/
def NewConfig (numCPU : Int) (suffixes : List GoString) (timeout : Int) : Config :=
  { NumWorkers := numCPU, Suffixes := suffixes, Timeout := timeout }

/-- The configuration `FastGeneration` (line 297) builds from the flags:
`strings.Split(strings.TrimSpace(suff), ",")` into `NewConfig`. -/
def FastGenerationConfig (u : UnicodeLib) (numCPU : Int) (timeout : Int) (suff : GoString) :
    Config :=
  NewConfig numCPU (Split 44 (TrimSpace u suff)) timeout

/-! ## `genKey` (lines 97-142) and the dispatch of `main` (lines 26-54) -/

/-- The key types of `crp` that `genKey` selects. -/
inductive KeyType
  | RSA | Ed25519 | Secp256k1 | ECDSA
deriving DecidableEq

/-- An `error` value: built by `fmt.Errorf` in this file, or handed back by a library. -/
inductive GoError
  | errorf (msg : GoString)
  | lib (code : Nat)
deriving DecidableEq

/-- The library and I/O calls of `genKey`, as functions of their arguments. -/
structure KeyLib where
  /-- Go `crp.GenerateKeyPair(atyp, size)`: private and public key, or an error. -/
  GenerateKeyPair : KeyType → Int → Except Nat (List UInt8 × List UInt8)
  /-- Go `peer.IDFromPublicKey(pub)`. -/
  IDFromPublicKey : List UInt8 → Except Nat GoString
  /-- Go `crp.MarshalPrivateKey(priv)`. -/
  MarshalPrivateKey : List UInt8 → Except Nat (List UInt8)
  /-- Go `os.Stdout.Write(data)`: the error, if any. -/
  stdoutWrite : List UInt8 → Option Nat
  /-- The final `fmt.Fprintf(os.Stderr, ...)`: the error, if any. -/
  stderrReport : GoString → List UInt8 → Option Nat

/-- What a call of `genKey` did: the error it returned (`none` for `nil`) and
the calls of `crp.GenerateKeyPair` it made. -/
structure GenKeyRun where
  err : Option GoError
  generated : List (KeyType × Int)
deriving DecidableEq

/-- The `switch strings.ToLower(*typ)` of `genKey` (lines 99-110). -/
def selectKeyType (u : UnicodeLib) (typ : GoString) : Option KeyType :=
  let l := ToLower u typ
  if l = bytes "rsa" then some KeyType.RSA
  else if l = bytes "ed25519" then some KeyType.Ed25519
  else if l = bytes "secp256k1" then some KeyType.Secp256k1
  else if l = bytes "ecdsa" then some KeyType.ECDSA
  else none

/-- Go `func genKey` (line 97). -/
def genKey (u : UnicodeLib) (lib : KeyLib) (typ : GoString) (size : Int) : GenKeyRun :=
  match selectKeyType u typ with
  | none => { err := some (GoError.errorf (bytes "unrecognized key type: " ++ typ)), generated := [] }
  | some atyp =>
    let calls := [(atyp, size)]
    match lib.GenerateKeyPair atyp size with
    | Except.error e => { err := some (GoError.lib e), generated := calls }
    | Except.ok (priv, pub) =>
      match lib.IDFromPublicKey pub with
      | Except.error e => { err := some (GoError.lib e), generated := calls }
      | Except.ok pid =>
        match lib.MarshalPrivateKey priv with
        | Except.error e => { err := some (GoError.lib e), generated := calls }
        | Except.ok data =>
          match lib.stdoutWrite data with
          | some _ => { err := none, generated := calls }
          | none => { err := (lib.stderrReport pid data).map GoError.lib, generated := calls }

/-- The parsed command line of `main` (lines 27-34). -/
structure Flags where
  bitsize : Int
  typ : GoString
  key : GoString
  fast : Bool
  timeout : Int
  suff : GoString

/-- Which of its three branches `main` takes, with the arguments it passes. -/
inductive MainAction
  | fastGeneration (cfg : Config)
  | readKey (keyLoc typ : GoString)
  | genKey (typ : GoString) (size : Int)
deriving DecidableEq

/-- Go `func main` (line 26) after `flag.Parse()`. -/
def main (u : UnicodeLib) (numCPU : Int) (f : Flags) : MainAction :=
  if f.fast && decide (f.suff.length ≥ 3) then
    MainAction.fastGeneration (FastGenerationConfig u numCPU f.timeout f.suff)
  else if f.key ≠ [] then MainAction.readKey f.key f.typ
  else MainAction.genKey (if f.typ = [] then bytes "ed25519" else f.typ) f.bitsize

/-! ## The hashrate report (lines 270-272) -/

/-- Conversion `uint64(x)` of an `int64`. -/
def toUint64 (x : Int) : Nat := (x % 2 ^ 64).toNat

/-- Go `time.Duration.Milliseconds`: `int64(d) / 1e6`, truncated. -/
def Milliseconds (d : Int) : Int := Int.tdiv d 1000000

/-- One hashrate tick, `elapsed = time.Since(startTime)`:
`x := uint64(elapsed.Milliseconds())`, then `keys/x`. Integer division by zero
is a run-time panic in Go: `none`. -/
def hashrate (keys : Nat) (elapsed : Int) : Option Nat :=
  let x := toUint64 (Milliseconds elapsed)
  if x = 0 then none else some (keys / x)

/-! ## The goroutines of `run` (lines 181-295) -/

/-- What one pass through the `default:` branch of `worker` meets (lines 194-213). -/
inductive GenOutcome
  /-- Go `crp.GenerateKeyPair` failed (line 195). -/
  | keyErr
  /-- Go `peer.IDFromPublicKey` failed (line 200). -/
  | idErr
  /-- Go `cid.Decode` failed (line 205). -/
  | cidErr
  /-- Go `c.StringOfBase` failed (line 210). -/
  | baseErr
  /-- All four calls succeeded: `data` is what `crp.MarshalPrivateKey(priv)`
  yields, `s` is `privateKeyAsb36`. -/
  | ok (data : List UInt8) (s : GoString)
  /-- A panic inside the iteration, caught by the deferred `recover` (lines 182-186). -/
  | fault
deriving DecidableEq

/-- Where a worker goroutine stands. -/
inductive WState
  /-- At the `select` of line 189. -/
  | atSelect
  /-- In the `default:` branch, past the cancellation test (line 194). -/
  | inDefault
  /-- Blocked in `resultChan <- r` (line 191 or 230); the channel is unbuffered. -/
  | sending (r : Result)
  /-- Returned; `wg.Done()` has run. -/
  | exited
deriving DecidableEq

/-- The timer goroutine of lines 261-279. -/
inductive Monitor
  | created | ticking | stopped
deriving DecidableEq

/-- What `run` returned: `(&res, nil)` or `(nil, fmt.Errorf("not found"))`. -/
inductive RunOutcome
  | found (res : Result)
  | notFound
deriving DecidableEq

/-- The goroutine executing `run`: in the `range resultChan` loop, or returned. -/
inductive Coord
  | receiving
  | returned (out : RunOutcome)
deriving DecidableEq

/-- The shared state of one call of `run`. -/
structure State where
  /-- The channel `ctx.Done()` is closed. -/
  cancelled : Bool
  /-- Worker `i` is the goroutine started with `id = i`. -/
  workers : List WState
  /-- The global `keys`, a `uint64`. -/
  keys : Nat
  /-- The calls `saveToFile(data, "private.key")` so far, oldest first, each
  with the id of the calling worker. -/
  saves : List (Nat × List UInt8)
  monitor : Monitor
  /-- The call `close(resultChan)` has run. -/
  closed : Bool
  coord : Coord
  /-- The values `run` has received from `resultChan`, oldest first. -/
  delivered : List Result
  /-- An unrecovered panic has ended the process. -/
  crashed : Bool
deriving DecidableEq

/-- One scheduling step of one goroutine. -/
inductive Event
  /-- The timer goroutine creates its two tickers (lines 262-266). -/
  | monitorStart
  /-- The ticker `hashrateTicker.C` fires, `elapsed` after `startTime` (line 270). -/
  | hashTick (elapsed : Int)
  /-- The ticker `ticker.C` fires (line 273). -/
  | timeout
  /-- Worker `i` executes the `select` of line 189. -/
  | check (i : Nat)
  /-- Worker `i` executes the `default:` branch, meeting outcome `o`. -/
  | gen (i : Nat) (o : GenOutcome)
  /-- The loop of `run` receives the value worker `i` is sending. -/
  | recv (i : Nat)
  /-- The call `wg.Wait()` returns and `close(resultChan)` runs (lines 282-285). -/
  | close
  /-- The `range` loop of `run` sees the closed channel (line 294). -/
  | recvClosed
deriving DecidableEq

/-- The state when `run` has started its goroutines: `i` ranges over
`0 .. NumWorkers-1` (no worker when `NumWorkers <= 0`); `keys` is a
zero-initialised global. -/
def initState (cfg : Config) : State :=
  { cancelled := false
    workers := List.replicate cfg.NumWorkers.toNat WState.atSelect
    keys := 0
    saves := []
    monitor := Monitor.created
    closed := false
    coord := Coord.receiving
    delivered := []
    crashed := false }

/-- The value of `Result{Cancelled: true}` (line 191). -/
def cancelledResult : Result :=
  { Found := false, String := [], WorkerID := 0, Cancelled := true }

/-- The value of `Result{Found: true, String: s, WorkerID: id}` (lines 230-234). -/
def foundResult (id : Nat) (s : GoString) : Result :=
  { Found := true, String := s, WorkerID := (id : Int), Cancelled := false }

/-- The `select` of worker (lines 189-193): `ctx.Done()` first, else `default`. -/
def workerSelect (cancelled : Bool) : WState :=
  if cancelled then WState.sending cancelledResult else WState.inDefault

/-- The `default:` branch of worker `i` (lines 194-239) on outcome `o`: a failed
call continues the loop; a candidate matching a suffix cancels the context,
is saved and the worker goes to send its `Found` result; any other candidate
adds one to `keys`. -/
def workerDefault (cfg : Config) (st : State) (i : Nat) : GenOutcome → State
  | GenOutcome.ok data s =>
    if matchSuffixes s cfg.Suffixes then
      { st with
        cancelled := true
        saves := st.saves ++ [(i, data)]
        workers := st.workers.set i (WState.sending (foundResult i s)) }
    else
      { st with keys := (st.keys + 1) % 2 ^ 64, workers := st.workers.set i WState.atSelect }
  | GenOutcome.fault => { st with workers := st.workers.set i WState.exited }
  | _ => { st with workers := st.workers.set i WState.atSelect }

/-- What the loop of `run` does with a received value (lines 288-292). -/
def coordReceive (res : Result) : Coord :=
  if !res.Cancelled && res.Found then Coord.returned (RunOutcome.found res) else Coord.receiving

/-- One event on a state; `none` when the event cannot happen there. -/
def step (cfg : Config) (st : State) (ev : Event) : Option State :=
  if st.crashed then none
  else
    match ev with
    | Event.monitorStart =>
      if st.monitor = Monitor.created then
        if cfg.Timeout ≤ 0 ∨ Int.tdiv cfg.Timeout 6 ≤ 0 then some { st with crashed := true }
        else some { st with monitor := Monitor.ticking }
      else none
    | Event.hashTick elapsed =>
      if st.monitor = Monitor.ticking then
        match hashrate st.keys elapsed with
        | none => some { st with crashed := true }
        | some _ => some st
      else none
    | Event.timeout =>
      if st.monitor = Monitor.ticking then
        some { st with cancelled := true, monitor := Monitor.stopped }
      else none
    | Event.check i =>
      match st.workers[i]? with
      | some WState.atSelect =>
        some { st with workers := st.workers.set i (workerSelect st.cancelled) }
      | _ => none
    | Event.gen i o =>
      match st.workers[i]? with
      | some WState.inDefault => some (workerDefault cfg st i o)
      | _ => none
    | Event.recv i =>
      match st.coord, st.workers[i]? with
      | Coord.receiving, some (WState.sending r) =>
        some { st with
               workers := st.workers.set i WState.exited
               delivered := st.delivered ++ [r]
               coord := coordReceive r }
      | _, _ => none
    | Event.close =>
      if st.closed = false ∧ st.workers.all (fun w => w = WState.exited) then
        some { st with closed := true }
      else none
    | Event.recvClosed =>
      if st.closed = true ∧ st.coord = Coord.receiving then
        some { st with coord := Coord.returned RunOutcome.notFound }
      else none

/-- A schedule: the events fire one after the other. -/
def exec (cfg : Config) : State → List Event → Option State
  | st, [] => some st
  | st, ev :: evs => (step cfg st ev).bind (fun st' => exec cfg st' evs)

/-! ## Observations on states and schedules -/

/-- Some worker has produced a `Found` result: it is blocked sending one, or
`run` has received one. -/
def emittedFound (st : State) : Bool :=
  st.workers.any (fun w => match w with
    | WState.sending r => r.Found
    | _ => false)
  || st.delivered.any (fun r => r.Found)

/-- The event is a pass of a worker that generated a candidate matching no suffix. -/
def isMiss (cfg : Config) : Event → Bool
  | Event.gen _ (GenOutcome.ok _ s) => !matchSuffixes s cfg.Suffixes
  | _ => false

/-- The number of generated candidates of a schedule that matched no suffix. -/
def missCount (cfg : Config) (evs : List Event) : Nat := evs.countP (isMiss cfg)

/-- The worker and key data of a pass that generated a matching candidate. -/
def hitOf (cfg : Config) : Event → Option (Nat × List UInt8)
  | Event.gen i (GenOutcome.ok data s) =>
    if matchSuffixes s cfg.Suffixes then some (i, data) else none
  | _ => none

/-- The matching candidates of a schedule, oldest first. -/
def hitsOf (cfg : Config) (evs : List Event) : List (Nat × List UInt8) :=
  evs.filterMap (hitOf cfg)

/-- Worker `i` alone running one loop iteration per outcome: `select`, then `default:`. -/
def iterations (i : Nat) : List GenOutcome → List Event
  | [] => []
  | o :: os => Event.check i :: Event.gen i o :: iterations i os

/-- The number of outcomes in which all four generation calls succeeded. -/
def successes : List GenOutcome → Nat
  | [] => 0
  | GenOutcome.ok _ _ :: os => successes os + 1
  | _ :: os => successes os

/-- The number of values `run` received from worker `i` in a schedule. -/
def recvCount (i : Nat) (evs : List Event) : Nat := evs.count (Event.recv i)

/-- A result a worker can send: the cancellation acknowledgement, or a `Found`
result for a candidate that worker `i` generated in the schedule and that
matched a suffix. -/
def Sendable (cfg : Config) (evs : List Event) (i : Nat) (r : Result) : Prop :=
  r = cancelledResult ∨
    ∃ data s, r = foundResult i s ∧ matchSuffixes s cfg.Suffixes = true ∧
      Event.gen i (GenOutcome.ok data s) ∈ evs

/-- The invariant of `run`: what holds of every state a schedule `evs` leads to. -/
structure Inv (cfg : Config) (evs : List Event) (st : State) : Prop where
  len : st.workers.length = cfg.NumWorkers.toNat
  sending : ∀ i r, st.workers[i]? = some (WState.sending r) → Sendable cfg evs i r
  delivered : ∀ r ∈ st.delivered, ∃ i, Sendable cfg evs i r
  found : ∀ r, st.coord = Coord.returned (RunOutcome.found r) →
    r ∈ st.delivered ∧ r.Found = true ∧ r.Cancelled = false
  receiving : st.coord = Coord.receiving → ∀ r ∈ st.delivered, r.Found = false
  closed : st.closed = true → ∀ w ∈ st.workers, w = WState.exited
  notFound : st.coord = Coord.returned RunOutcome.notFound →
    st.closed = true ∧ ∀ r ∈ st.delivered, r.Found = false
  keys : st.keys = missCount cfg evs % 2 ^ 64
  saves : st.saves = hitsOf cfg evs
  savers : ∀ p ∈ st.saves, st.workers[p.1]? = some WState.exited ∨
    ∃ r, st.workers[p.1]? = some (WState.sending r)
  nodup : (st.saves.map Prod.fst).Nodup
  once : ∀ i, recvCount i evs ≤ 1 ∧ (recvCount i evs = 1 → st.workers[i]? = some WState.exited)

/-! ## Concrete runs -/

/-- Two workers searching for the suffix `abc` with a timeout of five seconds. -/
def demoConfig : Config :=
  { NumWorkers := 2, Suffixes := [bytes "abc"], Timeout := 5000000000 }

/-- Both workers pass their `select`, the timeout fires, then worker 0
generates `xyzabc` and `run` receives its result. -/
def foundSchedule : List Event :=
  [Event.monitorStart, Event.check 0, Event.check 1, Event.timeout,
   Event.gen 0 (GenOutcome.ok [1] (bytes "xyzabc")), Event.recv 0]

/-- The state `foundSchedule` leads to. -/
def foundFinal : State :=
  { cancelled := true
    workers := [WState.exited, WState.inDefault]
    keys := 0
    saves := [(0, [1])]
    monitor := Monitor.stopped
    closed := false
    coord := Coord.returned (RunOutcome.found (foundResult 0 (bytes "xyzabc")))
    delivered := [foundResult 0 (bytes "xyzabc")]
    crashed := false }

/-- Nothing matches: the timeout fires, both workers acknowledge, the channel
is closed and `run` leaves its loop. -/
def timeoutSchedule : List Event :=
  [Event.monitorStart, Event.check 0, Event.gen 0 (GenOutcome.ok [1] (bytes "xyzabd")),
   Event.timeout, Event.check 0, Event.check 1, Event.recv 1, Event.recv 0,
   Event.close, Event.recvClosed]

/-- The state `timeoutSchedule` leads to. -/
def timeoutFinal : State :=
  { cancelled := true
    workers := [WState.exited, WState.exited]
    keys := 1
    saves := []
    monitor := Monitor.stopped
    closed := true
    coord := Coord.returned RunOutcome.notFound
    delivered := [cancelledResult, cancelledResult]
    crashed := false }

/-- Worker 0 matches and `run` returns; worker 1, still in its `default:`
branch, then fails a generation, sees the cancelled context and sends its
acknowledgement. -/
def leakSchedule : List Event :=
  [Event.check 0, Event.check 1, Event.gen 0 (GenOutcome.ok [1] (bytes "xyzabc")),
   Event.recv 0, Event.gen 1 GenOutcome.keyErr, Event.check 1]

/-- The state `leakSchedule` leads to. -/
def leakFinal : State :=
  { cancelled := true
    workers := [WState.exited, WState.sending cancelledResult]
    keys := 0
    saves := [(0, [1])]
    monitor := Monitor.created
    closed := false
    coord := Coord.returned (RunOutcome.found (foundResult 0 (bytes "xyzabc")))
    delivered := [foundResult 0 (bytes "xyzabc")]
    crashed := false }

/-- Both workers pass their `select` before either has a match; then each
generates a matching candidate. -/
def raceSchedule : List Event :=
  [Event.check 0, Event.check 1, Event.gen 0 (GenOutcome.ok [1] (bytes "xyzabc")),
   Event.gen 1 (GenOutcome.ok [2] (bytes "qqqabc"))]

/-- The state `raceSchedule` leads to. -/
def raceFinal : State :=
  { cancelled := true
    workers := [WState.sending (foundResult 0 (bytes "xyzabc")),
                WState.sending (foundResult 1 (bytes "qqqabc"))]
    keys := 0
    saves := [(0, [1]), (1, [2])]
    monitor := Monitor.created
    closed := false
    coord := Coord.receiving
    delivered := []
    crashed := false }

/-- One worker and a timeout of one millisecond (`-timeout 1ms`): the hashrate
ticker has period `Timeout / 6`, 166666 nanoseconds. -/
def tinyTimeoutConfig : Config :=
  { NumWorkers := 1, Suffixes := [bytes "abc"], Timeout := 1000000 }

/-- The command line `-fast -suff a,b`, the other flags at their defaults. -/
def shortSuffixFlags : Flags :=
  { bitsize := 2048, typ := [], key := [], fast := true, timeout := 600000000000,
    suff := bytes "a,b" }

/-- The command line `-fast -suff ,,,`, the other flags at their defaults. -/
def emptySuffixFlags : Flags :=
  { bitsize := 2048, typ := [], key := [], fast := true, timeout := 600000000000,
    suff := bytes ",,," }

/-- The type names `genKey` accepts, in lower case. -/
def keyTypeNames : List GoString :=
  [bytes "rsa", bytes "ed25519", bytes "secp256k1", bytes "ecdsa"]

/-- The command line with every flag at its default. -/
def defaultFlags : Flags :=
  { bitsize := 2048, typ := [], key := [], fast := false, timeout := 600000000000, suff := [] }

/-- A Unicode library whose table-driven paths return their argument; the
ASCII paths never call it. -/
def asciiOnly : UnicodeLib :=
  { TrimFuncIsSpace := fun s => s, TrimRightFuncIsSpace := fun s => s, MapToLower := fun s => s }

/-- A key library whose generation always fails with error code 7. -/
def failingLib : KeyLib :=
  { GenerateKeyPair := fun _ _ => Except.error 7
    IDFromPublicKey := fun _ => Except.error 7
    MarshalPrivateKey := fun _ => Except.error 7
    stdoutWrite := fun _ => none
    stderrReport := fun _ _ => none }

/-- The outcome sends the worker back to its `select` without a match: a
failed call, or a candidate matching no suffix. -/
def noHit (cfg : Config) : GenOutcome → Bool
  | GenOutcome.ok _ s => !matchSuffixes s cfg.Suffixes
  | GenOutcome.fault => false
  | _ => true

/-- Nine candidates that do not end in `abc`, with failed calls in between. -/
def nineMisses : List GenOutcome :=
  [GenOutcome.ok [1] (bytes "aaa"), GenOutcome.keyErr, GenOutcome.ok [2] (bytes "abd"),
   GenOutcome.ok [3] (bytes "bc"), GenOutcome.idErr, GenOutcome.ok [4] (bytes "abcx"),
   GenOutcome.ok [5] (bytes "ABC"), GenOutcome.cidErr, GenOutcome.ok [6] [],
   GenOutcome.ok [7] (bytes "xab"), GenOutcome.baseErr, GenOutcome.ok [8] (bytes "cba"),
   GenOutcome.ok [9] (bytes "abcabd")]

/-- Worker 0 matches and `run` returns its result; worker 1, which had passed
its `select` before, then generates a candidate matching nothing and is back
at its `select`. -/
def postFoundSchedule : List Event :=
  [Event.check 0, Event.check 1, Event.gen 0 (GenOutcome.ok [1] (bytes "xyzabc")),
   Event.recv 0, Event.gen 1 (GenOutcome.ok [2] (bytes "nomatch"))]

/-- The state `postFoundSchedule` leads to: the context is cancelled, `run` has
returned, worker 1 starts an iteration. -/
def postFoundAtSelect : State :=
  { cancelled := true
    workers := [WState.exited, WState.atSelect]
    keys := 1
    saves := [(0, [1])]
    monitor := Monitor.created
    closed := false
    coord := Coord.returned (RunOutcome.found (foundResult 0 (bytes "xyzabc")))
    delivered := [foundResult 0 (bytes "xyzabc")]
    crashed := false }

/-- The state after worker 1 has executed its `select` in `postFoundAtSelect`. -/
def postFoundBlocked : State :=
  { postFoundAtSelect with
    workers := [WState.exited, WState.sending cancelledResult] }

/-! ## Lemmas on the suffix test -/

theorem HasSuffix_iff (s suffix : GoString) :
    HasSuffix s suffix = true ↔ suffix <:+ s := by
  unfold HasSuffix
  constructor
  · intro h
    simp only [Bool.and_eq_true, decide_eq_true_eq, beq_iff_eq] at h
    have hd := List.take_append_drop (s.length - suffix.length) s
    rw [h.2] at hd
    exact ⟨_, hd⟩
  · rintro ⟨t, rfl⟩
    simp

theorem matchSuffixes_iff (s : GoString) (L : List GoString) :
    matchSuffixes s L = true ↔ ∃ needle ∈ L, needle <:+ s := by
  induction L with
  | nil => simp [matchSuffixes]
  | cons n rest ih =>
    unfold matchSuffixes
    by_cases h : HasSuffix s n = true
    · simp only [h, if_true, true_iff]
      exact ⟨n, List.mem_cons_self _ _, (HasSuffix_iff s n).1 h⟩
    · have h' : ¬ n <:+ s := fun hs => h ((HasSuffix_iff s n).2 hs)
      simp only [h, if_false, ih, List.mem_cons, Bool.false_eq_true]
      constructor
      · rintro ⟨m, hm, hs⟩
        exact ⟨m, Or.inr hm, hs⟩
      · rintro ⟨m, hm | hm, hs⟩
        · exact absurd (hm ▸ hs) h'
        · exact ⟨m, hm, hs⟩

/-! ## Schedules -/

theorem exec_append (cfg : Config) (xs ys : List Event) :
    ∀ st, exec cfg st (xs ++ ys) = (exec cfg st xs).bind (fun s => exec cfg s ys) := by
  induction xs with
  | nil => intro st; simp [exec]
  | cons x xs ih =>
    intro st
    simp only [List.cons_append, exec]
    cases step cfg st x with
    | none => simp
    | some s => simp [ih]

theorem exec_snoc (cfg : Config) (st : State) (evs : List Event) (ev : Event) :
    exec cfg st (evs ++ [ev]) = (exec cfg st evs).bind (fun s => step cfg s ev) := by
  rw [exec_append]
  congr 1
  funext s
  simp only [exec]
  cases step cfg s ev <;> rfl

theorem recvCount_snoc (i : Nat) (evs : List Event) (ev : Event) :
    recvCount i (evs ++ [ev]) = recvCount i evs + if ev = Event.recv i then 1 else 0 := by
  simp [recvCount, List.count_append, List.count_singleton]

theorem missCount_snoc (cfg : Config) (evs : List Event) (ev : Event) :
    missCount cfg (evs ++ [ev]) = missCount cfg evs + if isMiss cfg ev = true then 1 else 0 := by
  simp [missCount, List.countP_append, List.countP_singleton]

theorem hitsOf_snoc (cfg : Config) (evs : List Event) (ev : Event) :
    hitsOf cfg (evs ++ [ev]) = hitsOf cfg evs ++ (hitOf cfg ev).toList := by
  simp only [hitsOf, List.filterMap_append]
  congr 1

theorem Sendable.mono {cfg : Config} {evs : List Event} {i : Nat} {r : Result} (ev : Event)
    (h : Sendable cfg evs i r) : Sendable cfg (evs ++ [ev]) i r := by
  rcases h with h | ⟨d, s, h1, h2, h3⟩
  · exact Or.inl h
  · exact Or.inr ⟨d, s, h1, h2, List.mem_append_left _ h3⟩

/-! ## The invariant holds along every schedule -/

theorem inv_init (cfg : Config) : Inv cfg [] (initState cfg) where
  len := by simp [initState]
  sending := by
    intro i r h
    simp only [initState, List.getElem?_replicate] at h
    split at h <;> simp at h
  delivered := by simp [initState]
  found := by simp [initState]
  receiving := by simp [initState]
  closed := by simp [initState]
  notFound := by simp [initState]
  keys := by simp [initState, missCount]
  saves := by simp [initState, hitsOf]
  savers := by simp [initState]
  nodup := by simp [initState]
  once := by simp [recvCount]

/-- An event that is neither a generated candidate nor a receive leaves the
invariant in place when the state is unchanged in the observed fields. -/
theorem inv_extend {cfg : Config} {evs : List Event} {st : State} (ev : Event)
    (h : Inv cfg evs st) (hm : isMiss cfg ev = false) (hh : hitOf cfg ev = none)
    (hr : ∀ i, ev ≠ Event.recv i) : Inv cfg (evs ++ [ev]) st where
  len := h.len
  sending := fun i r hi => (h.sending i r hi).mono ev
  delivered := fun r hr' => let ⟨i, hi⟩ := h.delivered r hr'; ⟨i, hi.mono ev⟩
  found := h.found
  receiving := h.receiving
  closed := h.closed
  notFound := h.notFound
  keys := by rw [missCount_snoc, hm]; simpa using h.keys
  saves := by rw [hitsOf_snoc, hh]; simpa using h.saves
  savers := h.savers
  nodup := h.nodup
  once := fun i => by rw [recvCount_snoc, if_neg (hr i)]; exact h.once i

/-- The invariant depends on the state only through the observed fields. -/
theorem inv_congr {cfg : Config} {evs : List Event} {st st' : State} (h : Inv cfg evs st)
    (hw : st'.workers = st.workers) (hd : st'.delivered = st.delivered)
    (hc : st'.coord = st.coord) (hcl : st'.closed = st.closed)
    (hk : st'.keys = st.keys) (hs : st'.saves = st.saves) : Inv cfg evs st' where
  len := by rw [hw]; exact h.len
  sending := by rw [hw]; exact h.sending
  delivered := by rw [hd]; exact h.delivered
  found := by rw [hc, hd]; exact h.found
  receiving := by rw [hc, hd]; exact h.receiving
  closed := by rw [hcl, hw]; exact h.closed
  notFound := by rw [hc, hcl, hd]; exact h.notFound
  keys := by rw [hk]; exact h.keys
  saves := by rw [hs]; exact h.saves
  savers := by rw [hs, hw]; exact h.savers
  nodup := by rw [hs]; exact h.nodup
  once := by rw [hw]; exact h.once

/-- A worker that is at its `select` or in its `default:` branch has neither
exited nor started a send. -/
theorem active_ne {w : WState} (hact : w = WState.atSelect ∨ w = WState.inDefault) :
    w ≠ WState.exited ∧ ∀ r, w ≠ WState.sending r := by
  rcases hact with h | h <;> subst h <;> exact ⟨by simp, by simp⟩

/-- A step of worker `i` out of its `select` or its `default:` branch keeps the invariant. -/
theorem inv_worker {cfg : Config} {evs : List Event} {st st' : State} (ev : Event)
    (h : Inv cfg evs st) (i : Nat) (w w' : WState)
    (hi : st.workers[i]? = some w) (hact : w = WState.atSelect ∨ w = WState.inDefault)
    (hws : st'.workers = st.workers.set i w')
    (hw' : ∀ r, w' = WState.sending r → Sendable cfg (evs ++ [ev]) i r)
    (hd : st'.delivered = st.delivered) (hc : st'.coord = st.coord)
    (hcl : st'.closed = st.closed) (hr : ∀ j, ev ≠ Event.recv j)
    (hk : st'.keys = missCount cfg (evs ++ [ev]) % 2 ^ 64)
    (hs : st'.saves = hitsOf cfg (evs ++ [ev]))
    (hsv : st'.saves = st.saves ∨
      ∃ d r, st'.saves = st.saves ++ [(i, d)] ∧ w' = WState.sending r) :
    Inv cfg (evs ++ [ev]) st' := by
  obtain ⟨hne, hns⟩ := active_ne hact
  have hlt : i < st.workers.length := (List.getElem?_eq_some.1 hi).1
  have hfresh : ∀ p ∈ st.saves, p.1 ≠ i := by
    intro p hp hpi
    rcases h.savers p hp with hx | ⟨r, hx⟩
    · rw [hpi, hi] at hx; exact hne (Option.some.inj hx)
    · rw [hpi, hi] at hx; exact hns r (Option.some.inj hx)
  have hold : ∀ p ∈ st.saves, st'.workers[p.1]? = some WState.exited ∨
      ∃ r, st'.workers[p.1]? = some (WState.sending r) := by
    intro p hp
    rw [hws, List.getElem?_set_ne (Ne.symm (hfresh p hp))]
    exact h.savers p hp
  refine
    { len := by rw [hws, List.length_set]; exact h.len
      sending := ?_
      delivered := fun r hr' => by
        rw [hd] at hr'
        obtain ⟨j, hj⟩ := h.delivered r hr'
        exact ⟨j, hj.mono ev⟩
      found := by rw [hc, hd]; exact h.found
      receiving := by rw [hc, hd]; exact h.receiving
      closed := ?_
      notFound := ?_
      keys := hk
      saves := hs
      savers := ?_
      nodup := ?_
      once := ?_ }
  · intro j r hj
    rw [hws, List.getElem?_set] at hj
    by_cases hij : i = j
    · subst hij
      rw [if_pos rfl, if_pos hlt] at hj
      exact hw' r (Option.some.inj hj)
    · rw [if_neg hij] at hj
      exact (h.sending j r hj).mono ev
  · intro hclosed
    rw [hcl] at hclosed
    exact absurd (h.closed hclosed w (List.mem_iff_getElem?.2 ⟨i, hi⟩)) hne
  · intro hnf
    rw [hc] at hnf
    have hclosed := (h.notFound hnf).1
    exact absurd (h.closed hclosed w (List.mem_iff_getElem?.2 ⟨i, hi⟩)) hne
  · intro p hp
    rcases hsv with hsame | ⟨d, r, happ, hw⟩
    · rw [hsame] at hp
      exact hold p hp
    · rw [happ, List.mem_append, List.mem_singleton] at hp
      rcases hp with hp | hp
      · exact hold p hp
      · subst hp
        exact Or.inr ⟨r, by rw [hws, List.getElem?_set_self hlt, hw]⟩
  · rcases hsv with hsame | ⟨d, r, happ, _⟩
    · rw [hsame]; exact h.nodup
    · rw [happ, List.map_append, List.nodup_append]
      refine ⟨h.nodup, by simp, ?_⟩
      intro a ha hb
      simp only [List.map_cons, List.map_nil, List.mem_singleton] at hb
      obtain ⟨p, hp, hpa⟩ := List.mem_map.1 ha
      exact hfresh p hp (hpa.trans hb)
  · intro j
    rw [recvCount_snoc, if_neg (hr j), Nat.add_zero]
    refine ⟨(h.once j).1, fun hone => ?_⟩
    have hex := (h.once j).2 hone
    have hji : i ≠ j := by
      intro hij
      subst hij
      rw [hi] at hex
      exact hne (Option.some.inj hex)
    rw [hws, List.getElem?_set_ne hji]
    exact hex

theorem sendable_found_iff {cfg : Config} {evs : List Event} {i : Nat} {r : Result}
    (h : Sendable cfg evs i r) :
    (r.Found = false ∧ r.Cancelled = true) ∨ (r.Found = true ∧ r.Cancelled = false) := by
  rcases h with h | ⟨d, s, h, _, _⟩
  · subst h; exact Or.inl ⟨rfl, rfl⟩
  · subst h; exact Or.inr ⟨rfl, rfl⟩

/-- The loop of `run` receiving the value worker `i` is sending keeps the invariant. -/
theorem inv_recv {cfg : Config} {evs : List Event} {st : State} (h : Inv cfg evs st)
    (i : Nat) (r : Result) (hco : st.coord = Coord.receiving)
    (hi : st.workers[i]? = some (WState.sending r)) :
    Inv cfg (evs ++ [Event.recv i])
      { st with
        workers := st.workers.set i WState.exited
        delivered := st.delivered ++ [r]
        coord := coordReceive r } := by
  have hlt : i < st.workers.length := (List.getElem?_eq_some.1 hi).1
  have hsend := h.sending i r hi
  refine
    { len := by simp only [List.length_set]; exact h.len
      sending := ?_
      delivered := ?_
      found := ?_
      receiving := ?_
      closed := ?_
      notFound := ?_
      keys := by rw [missCount_snoc]; simpa [isMiss] using h.keys
      saves := by rw [hitsOf_snoc]; simpa [hitOf] using h.saves
      savers := ?_
      nodup := h.nodup
      once := ?_ }
  · intro j r' hj
    simp only [List.getElem?_set] at hj
    by_cases hij : i = j
    · rw [if_pos hij, if_pos hlt] at hj
      simp at hj
    · rw [if_neg hij] at hj
      exact (h.sending j r' hj).mono _
  · intro r' hr'
    simp only [List.mem_append, List.mem_singleton] at hr'
    rcases hr' with hr' | hr'
    · obtain ⟨j, hj⟩ := h.delivered r' hr'
      exact ⟨j, hj.mono _⟩
    · subst hr'
      exact ⟨i, hsend.mono _⟩
  · intro r' hr'
    simp only [coordReceive] at hr'
    split at hr'
    · rename_i hcond
      simp only [Coord.returned.injEq, RunOutcome.found.injEq] at hr'
      subst hr'
      simp only [Bool.and_eq_true, Bool.not_eq_true', ] at hcond
      exact ⟨by simp, hcond.2, hcond.1⟩
    · simp at hr'
  · intro hrec r' hr'
    simp only [coordReceive] at hrec
    split at hrec
    · simp at hrec
    · rename_i hcond
      simp only [List.mem_append, List.mem_singleton] at hr'
      rcases hr' with hr' | hr'
      · exact h.receiving hco r' hr'
      · subst hr'
        rcases sendable_found_iff hsend with hf | hf
        · exact hf.1
        · exact absurd (by simp [hf.1, hf.2]) hcond
  · intro hclosed
    have := h.closed hclosed _ (List.mem_iff_getElem?.2 ⟨i, hi⟩)
    simp at this
  · intro hnf
    simp only [coordReceive] at hnf
    split at hnf <;> simp at hnf
  · intro p hp
    by_cases hpi : i = p.1
    · left
      simp only [← hpi, List.getElem?_set_self hlt]
    · simp only [List.getElem?_set_ne hpi]
      exact h.savers p hp
  · intro j
    rw [recvCount_snoc]
    by_cases hij : i = j
    · subst hij
      have hzero : recvCount i evs = 0 := by
        have h1 := (h.once i).1
        have h2 := (h.once i).2
        by_contra hne
        have hone : recvCount i evs = 1 := by omega
        have := h2 hone
        rw [hi] at this
        simp at this
      simp [hzero, List.getElem?_set_self hlt]
    · have hne : Event.recv i ≠ Event.recv j := by simpa using hij
      rw [if_neg hne, Nat.add_zero]
      refine ⟨(h.once j).1, fun hone => ?_⟩
      simp only [List.getElem?_set_ne hij]
      exact (h.once j).2 hone

/-- Every enabled event keeps the invariant. -/
theorem inv_step {cfg : Config} {evs : List Event} {st st' : State} {ev : Event}
    (h : Inv cfg evs st) (hs : step cfg st ev = some st') : Inv cfg (evs ++ [ev]) st' := by
  unfold step at hs
  split at hs
  · simp at hs
  · cases ev with
    | monitorStart =>
      simp only at hs
      split at hs
      · split at hs <;> (simp only [Option.some.injEq] at hs; subst hs)
        · exact inv_congr (inv_extend _ h rfl rfl (by simp)) rfl rfl rfl rfl rfl rfl
        · exact inv_congr (inv_extend _ h rfl rfl (by simp)) rfl rfl rfl rfl rfl rfl
      · simp at hs
    | hashTick elapsed =>
      simp only at hs
      split at hs
      · split at hs <;> (simp only [Option.some.injEq] at hs; subst hs)
        · exact inv_congr (inv_extend _ h rfl rfl (by simp)) rfl rfl rfl rfl rfl rfl
        · exact inv_extend _ h rfl rfl (by simp)
      · simp at hs
    | timeout =>
      simp only at hs
      split at hs
      · simp only [Option.some.injEq] at hs; subst hs
        exact inv_congr (inv_extend _ h rfl rfl (by simp)) rfl rfl rfl rfl rfl rfl
      · simp at hs
    | check i =>
      simp only at hs
      split at hs
      · rename_i hi
        simp only [Option.some.injEq] at hs; subst hs
        refine inv_worker _ h i _ (workerSelect st.cancelled) hi (Or.inl rfl) rfl ?_ rfl rfl rfl
          (by simp) ?_ ?_ (Or.inl rfl)
        · intro r hr
          unfold workerSelect at hr
          split at hr
          · simp only [WState.sending.injEq] at hr
            exact Or.inl hr.symm
          · simp at hr
        · rw [missCount_snoc]; simpa [isMiss] using h.keys
        · rw [hitsOf_snoc]; simpa [hitOf] using h.saves
      · simp at hs
    | gen i o =>
      simp only at hs
      split at hs
      · rename_i hi
        simp only [Option.some.injEq] at hs; subst hs
        cases o with
        | ok data s =>
          simp only [workerDefault]
          split
          · rename_i hm
            refine inv_worker _ h i _ (WState.sending (foundResult i s)) hi (Or.inr rfl) rfl ?_
              rfl rfl rfl (by simp) ?_ ?_ (Or.inr ⟨data, _, rfl, rfl⟩)
            · intro r hr
              simp only [WState.sending.injEq] at hr
              exact Or.inr ⟨data, s, hr.symm, hm, by simp⟩
            · rw [missCount_snoc]; simpa [isMiss, hm] using h.keys
            · rw [hitsOf_snoc]; simp [hitOf, hm, h.saves]
          · rename_i hm
            refine inv_worker _ h i _ WState.atSelect hi (Or.inr rfl) rfl (by simp)
              rfl rfl rfl (by simp) ?_ ?_ (Or.inl rfl)
            · rw [missCount_snoc]; simp [isMiss, hm, h.keys]
            · rw [hitsOf_snoc]; simpa [hitOf, hm] using h.saves
        | fault =>
          refine inv_worker _ h i _ WState.exited hi (Or.inr rfl) rfl (by simp)
            rfl rfl rfl (by simp) ?_ ?_ (Or.inl rfl)
          · rw [missCount_snoc]; simpa [isMiss] using h.keys
          · rw [hitsOf_snoc]; simpa [hitOf] using h.saves
        | keyErr =>
          refine inv_worker _ h i _ WState.atSelect hi (Or.inr rfl) rfl (by simp)
            rfl rfl rfl (by simp) ?_ ?_ (Or.inl rfl)
          · rw [missCount_snoc]; simpa [isMiss] using h.keys
          · rw [hitsOf_snoc]; simpa [hitOf] using h.saves
        | idErr =>
          refine inv_worker _ h i _ WState.atSelect hi (Or.inr rfl) rfl (by simp)
            rfl rfl rfl (by simp) ?_ ?_ (Or.inl rfl)
          · rw [missCount_snoc]; simpa [isMiss] using h.keys
          · rw [hitsOf_snoc]; simpa [hitOf] using h.saves
        | cidErr =>
          refine inv_worker _ h i _ WState.atSelect hi (Or.inr rfl) rfl (by simp)
            rfl rfl rfl (by simp) ?_ ?_ (Or.inl rfl)
          · rw [missCount_snoc]; simpa [isMiss] using h.keys
          · rw [hitsOf_snoc]; simpa [hitOf] using h.saves
        | baseErr =>
          refine inv_worker _ h i _ WState.atSelect hi (Or.inr rfl) rfl (by simp)
            rfl rfl rfl (by simp) ?_ ?_ (Or.inl rfl)
          · rw [missCount_snoc]; simpa [isMiss] using h.keys
          · rw [hitsOf_snoc]; simpa [hitOf] using h.saves
      · simp at hs
    | recv i =>
      simp only at hs
      split at hs
      · rename_i hco hi
        simp only [Option.some.injEq] at hs; subst hs
        exact inv_recv h i _ hco hi
      · simp at hs
    | close =>
      simp only at hs
      split at hs
      · rename_i hg
        simp only [Option.some.injEq] at hs; subst hs
        have hall : ∀ w ∈ st.workers, w = WState.exited := by
          simpa using hg.2
        have h' := inv_extend Event.close h rfl rfl (by simp)
        exact
          { h' with
            closed := fun _ => hall
            notFound := fun hnf => ⟨rfl, (h'.notFound hnf).2⟩ }
      · simp at hs
    | recvClosed =>
      simp only at hs
      split at hs
      · rename_i hg
        simp only [Option.some.injEq] at hs; subst hs
        have h' := inv_extend Event.recvClosed h rfl rfl (by simp)
        exact
          { h' with
            found := fun r hr => by simp at hr
            receiving := fun hr => by simp at hr
            notFound := fun _ => ⟨hg.1, h'.receiving hg.2⟩ }
      · simp at hs

/-- The invariant holds after every schedule started in the initial state. -/
theorem inv_exec (cfg : Config) : ∀ (evs : List Event) (st : State),
    exec cfg (initState cfg) evs = some st → Inv cfg evs st := by
  intro evs
  induction evs using List.reverseRecOn with
  | nil =>
    intro st h
    simp only [exec, Option.some.injEq] at h
    subst h
    exact inv_init cfg
  | append_singleton evs ev ih =>
    intro st h
    rw [exec_snoc] at h
    cases hmid : exec cfg (initState cfg) evs with
    | none => rw [hmid] at h; simp at h
    | some mid =>
      rw [hmid] at h
      exact inv_step (ih mid hmid) h

/-! ## Claims -/

/-- C1: whenever `run(config)` returns a result without error, the result has
`Found = true` and `Cancelled = false`, its `String` ends with one of
`config.Suffixes`, and it is the canonical string of a candidate that the
worker named in `WorkerID` generated during that run. -/
theorem C1_returned_result_is_a_generated_match (cfg : Config) (evs : List Event) (st : State)
    (res : Result) (hexec : exec cfg (initState cfg) evs = some st)
    (hret : st.coord = Coord.returned (RunOutcome.found res)) :
    res.Found = true ∧ res.Cancelled = false ∧
      (∃ needle ∈ cfg.Suffixes, needle <:+ res.String) ∧
      ∃ i data, Event.gen i (GenOutcome.ok data res.String) ∈ evs ∧ res.WorkerID = (i : Int) := by
  have h := inv_exec cfg evs st hexec
  obtain ⟨hmem, hfound, hcanc⟩ := h.found res hret
  obtain ⟨i, hsend⟩ := h.delivered res hmem
  rcases hsend with hc | ⟨data, s, hres, hmatch, hgen⟩
  · subst hc
    simp [cancelledResult] at hfound
  · subst hres
    exact ⟨rfl, rfl, (matchSuffixes_iff s cfg.Suffixes).1 hmatch, i, data, hgen, rfl⟩

theorem C1_witness :
    exec demoConfig (initState demoConfig) foundSchedule = some foundFinal ∧
      (foundResult 0 (bytes "xyzabc")).Found = true ∧
      (foundResult 0 (bytes "xyzabc")).Cancelled = false ∧
      (∃ needle ∈ demoConfig.Suffixes, needle <:+ (foundResult 0 (bytes "xyzabc")).String) ∧
      ∃ i data, Event.gen i (GenOutcome.ok data (foundResult 0 (bytes "xyzabc")).String)
          ∈ foundSchedule ∧ (foundResult 0 (bytes "xyzabc")).WorkerID = (i : Int) :=
  ⟨by decide,
    C1_returned_result_is_a_generated_match demoConfig foundSchedule foundFinal
      (foundResult 0 (bytes "xyzabc")) (by decide) (by rfl)⟩

/-- C2: the suffix test of `worker` is a pure predicate: a candidate `s` is a
match for the suffix list `L` exactly when some needle of `L` is a suffix of
`s`, byte for byte; `xyzabc` matches `[abc]`, `xyzABC` does not, and nothing
matches the empty list. -/
theorem C2_match_iff_some_needle_is_suffix :
    (∀ (s : GoString) (L : List GoString),
        matchSuffixes s L = true ↔ ∃ needle ∈ L, needle <:+ s) ∧
      matchSuffixes (bytes "xyzabc") [bytes "abc"] = true ∧
      matchSuffixes (bytes "xyzABC") [bytes "abc"] = false ∧
      ∀ s : GoString, matchSuffixes s [] = false :=
  ⟨matchSuffixes_iff, by decide, by decide, fun _ => rfl⟩

theorem emittedFound_eq_false_iff (st : State) :
    emittedFound st = false ↔
      (∀ r, WState.sending r ∈ st.workers → r.Found = false) ∧
        ∀ r ∈ st.delivered, r.Found = false := by
  unfold emittedFound
  rw [Bool.or_eq_false_iff, List.any_eq_false, List.any_eq_false]
  constructor
  · rintro ⟨h1, h2⟩
    refine ⟨fun r hr => ?_, fun r hr => by simpa using h2 r hr⟩
    simpa using h1 _ hr
  · rintro ⟨h1, h2⟩
    refine ⟨fun w hw => ?_, fun r hr => by simp [h2 r hr]⟩
    cases w with
    | sending r => simp [h1 r hw]
    | _ => simp

/-- C3: when `run` has returned, it returned "not found" exactly when no worker
produced a `Found` result during the run; if some worker produced one, `run`
returned a `Found` result. While `run` is still receiving and a worker is
sending a `Found` result, `run` can receive it and then returns it; this does
not depend on whether the timeout has cancelled the context, as in the run
`foundSchedule`, where the timeout fires before the match. -/
theorem C3_not_found_iff_no_found_emitted (cfg : Config) (evs : List Event) (st : State)
    (hexec : exec cfg (initState cfg) evs = some st) :
    (∀ out, st.coord = Coord.returned out →
        (out = RunOutcome.notFound ↔ emittedFound st = false) ∧
          (emittedFound st = true → ∃ r, out = RunOutcome.found r ∧ r.Found = true)) ∧
      (st.coord = Coord.receiving → st.crashed = false → emittedFound st = true →
        ∃ i r st', st.workers[i]? = some (WState.sending r) ∧ r.Found = true ∧
          step cfg st (Event.recv i) = some st' ∧
          st'.coord = Coord.returned (RunOutcome.found r)) ∧
      (exec demoConfig (initState demoConfig) foundSchedule).map (fun s => (s.cancelled, s.coord))
        = some (true, Coord.returned (RunOutcome.found (foundResult 0 (bytes "xyzabc")))) := by
  have h := inv_exec cfg evs st hexec
  refine ⟨?_, ?_, by decide⟩
  · intro out hout
    cases out with
    | notFound =>
      obtain ⟨hclosed, hdel⟩ := h.notFound hout
      have hno : emittedFound st = false := by
        rw [emittedFound_eq_false_iff]
        refine ⟨fun r hr => ?_, hdel⟩
        have := h.closed hclosed _ hr
        simp at this
      exact ⟨⟨fun _ => hno, fun _ => rfl⟩, fun he => by rw [hno] at he; simp at he⟩
    | found r =>
      obtain ⟨hmem, hfound, _⟩ := h.found r hout
      have hyes : emittedFound st = true := by
        cases hem : emittedFound st with
        | true => rfl
        | false =>
          have := ((emittedFound_eq_false_iff st).1 hem).2 r hmem
          rw [hfound] at this
          simp at this
      exact ⟨⟨fun hc => by simp at hc, fun hc => by rw [hyes] at hc; simp at hc⟩,
        fun _ => ⟨r, rfl, hfound⟩⟩
  · intro hrec hcrash hem
    have hdel := h.receiving hrec
    have hex : ∃ r, WState.sending r ∈ st.workers ∧ r.Found = true := by
      by_contra hcon
      have hno : emittedFound st = false := by
        rw [emittedFound_eq_false_iff]
        refine ⟨fun r hr => ?_, hdel⟩
        cases hf : r.Found with
        | false => rfl
        | true => exact absurd ⟨r, hr, hf⟩ hcon
      rw [hno] at hem
      simp at hem
    obtain ⟨r, hr, hf⟩ := hex
    obtain ⟨i, hi⟩ := List.mem_iff_getElem?.1 hr
    have hcanc : r.Cancelled = false := by
      rcases sendable_found_iff (h.sending i r hi) with hx | hx
      · rw [hf] at hx; simp at hx
      · exact hx.2
    refine ⟨i, r,
      { st with
        workers := st.workers.set i WState.exited
        delivered := st.delivered ++ [r]
        coord := coordReceive r }, hi, hf, ?_, ?_⟩
    · simp only [step, hcrash, hrec, hi]
      rfl
    · simp [coordReceive, hf, hcanc]

theorem C3_witness :
    exec demoConfig (initState demoConfig) timeoutSchedule = some timeoutFinal ∧
      ((∀ out, timeoutFinal.coord = Coord.returned out →
        (out = RunOutcome.notFound ↔ emittedFound timeoutFinal = false) ∧
          (emittedFound timeoutFinal = true →
            ∃ r, out = RunOutcome.found r ∧ r.Found = true)) ∧
      (timeoutFinal.coord = Coord.receiving → timeoutFinal.crashed = false →
        emittedFound timeoutFinal = true →
        ∃ i r st', timeoutFinal.workers[i]? = some (WState.sending r) ∧ r.Found = true ∧
          step demoConfig timeoutFinal (Event.recv i) = some st' ∧
          st'.coord = Coord.returned (RunOutcome.found r)) ∧
      (exec demoConfig (initState demoConfig) foundSchedule).map (fun s => (s.cancelled, s.coord))
        = some (true, Coord.returned (RunOutcome.found (foundResult 0 (bytes "xyzabc"))))) :=
  ⟨by decide,
    C3_not_found_iff_no_found_emitted demoConfig timeoutSchedule timeoutFinal (by decide)⟩

/-- Once `run` has returned, a worker blocked in its send stays blocked: no
event changes either fact. -/
theorem blocked_step {cfg : Config} {st st' : State} {ev : Event} {i : Nat} {r : Result}
    {out : RunOutcome} (hco : st.coord = Coord.returned out)
    (hi : st.workers[i]? = some (WState.sending r)) (hs : step cfg st ev = some st') :
    st'.coord = Coord.returned out ∧ st'.workers[i]? = some (WState.sending r) := by
  have hset : ∀ (j : Nat) (w w' : WState), st.workers[j]? = some w → (∀ r', w ≠ WState.sending r') →
      (st.workers.set j w')[i]? = some (WState.sending r) := by
    intro j w w' hj hw
    have hji : j ≠ i := by
      intro hji
      subst hji
      rw [hi] at hj
      exact hw r (Option.some.inj hj).symm
    rw [List.getElem?_set_ne hji]
    exact hi
  unfold step at hs
  split at hs
  · simp at hs
  · cases ev with
    | monitorStart =>
      simp only at hs
      split at hs
      · split at hs <;> (simp only [Option.some.injEq] at hs; subst hs; exact ⟨hco, hi⟩)
      · simp at hs
    | hashTick elapsed =>
      simp only at hs
      split at hs
      · split at hs <;> (simp only [Option.some.injEq] at hs; subst hs; exact ⟨hco, hi⟩)
      · simp at hs
    | timeout =>
      simp only at hs
      split at hs
      · simp only [Option.some.injEq] at hs; subst hs; exact ⟨hco, hi⟩
      · simp at hs
    | check j =>
      simp only at hs
      split at hs
      · rename_i hj
        simp only [Option.some.injEq] at hs; subst hs
        exact ⟨hco, hset j _ _ hj (by simp)⟩
      · simp at hs
    | gen j o =>
      simp only at hs
      split at hs
      · rename_i hj
        simp only [Option.some.injEq] at hs; subst hs
        cases o <;> simp only [workerDefault] <;> try exact ⟨hco, hset j _ _ hj (by simp)⟩
        split <;> exact ⟨hco, hset j _ _ hj (by simp)⟩
      · simp at hs
    | recv j =>
      simp only at hs
      split at hs
      · rename_i hrec _
        rw [hco] at hrec
        simp at hrec
      · simp at hs
    | close =>
      simp only at hs
      split at hs
      · simp only [Option.some.injEq] at hs; subst hs; exact ⟨hco, hi⟩
      · simp at hs
    | recvClosed =>
      simp only at hs
      split at hs
      · rename_i hg
        rw [hco] at hg
        simp at hg
      · simp at hs

theorem blocked_forever {cfg : Config} {i : Nat} {r : Result} {out : RunOutcome} :
    ∀ (evs : List Event) (st st' : State), st.coord = Coord.returned out →
      st.workers[i]? = some (WState.sending r) → exec cfg st evs = some st' →
      st'.coord = Coord.returned out ∧ st'.workers[i]? = some (WState.sending r) := by
  intro evs
  induction evs with
  | nil =>
    intro st st' hco hi h
    simp only [exec, Option.some.injEq] at h
    subst h
    exact ⟨hco, hi⟩
  | cons ev evs ih =>
    intro st st' hco hi h
    simp only [exec] at h
    cases hmid : step cfg st ev with
    | none => rw [hmid] at h; simp at h
    | some mid =>
      rw [hmid] at h
      obtain ⟨hco', hi'⟩ := blocked_step hco hi hmid
      exact ih mid st' hco' hi' h

/-- When `run` returns "not found", every worker has exited: the channel is
closed only after `wg.Wait()`. -/
theorem notFound_workers_exited (cfg : Config) (evs : List Event) (st : State)
    (hexec : exec cfg (initState cfg) evs = some st)
    (hnf : st.coord = Coord.returned RunOutcome.notFound) :
    ∀ w ∈ st.workers, w = WState.exited :=
  let h := inv_exec cfg evs st hexec
  h.closed (h.notFound hnf).1

/-- C4, on the run `leakSchedule` of two workers: worker 0 matches and `run`
returns its `Found` result at once; worker 1 then reaches
`resultChan <- Result{Cancelled: true}` and stays blocked in that send in every
continuation, because `run` no longer receives. -/
theorem C4_found_return_leaves_worker_blocked :
    exec demoConfig (initState demoConfig) leakSchedule = some leakFinal ∧
      leakFinal.coord = Coord.returned (RunOutcome.found (foundResult 0 (bytes "xyzabc"))) ∧
      leakFinal.workers[1]? = some (WState.sending cancelledResult) ∧
      ∀ evs st, exec demoConfig leakFinal evs = some st →
        st.workers[1]? = some (WState.sending cancelledResult) :=
  ⟨by decide, rfl, rfl, fun evs st h => (blocked_forever evs leakFinal st rfl rfl h).2⟩

/-- A duplicate-free list of numbers below `n` has at most `n` entries. -/
theorem length_le_of_nodup_of_lt (l : List Nat) (n : Nat) (hnd : l.Nodup)
    (hlt : ∀ x ∈ l, x < n) : l.length ≤ n := by
  have hsub : l.toFinset ⊆ Finset.range n := by
    intro x hx
    exact Finset.mem_range.2 (hlt x (List.mem_toFinset.1 hx))
  have hcard := Finset.card_le_card hsub
  rw [List.toFinset_card_of_nodup hnd, Finset.card_range] at hcard
  exact hcard

/-- C5, on the run `raceSchedule` of two workers: both are past their `select`
when worker 0 generates a matching candidate and calls `cancelFunc()`; worker 1
is not stopped by it, generates a matching candidate too, and `saveToFile` is
called twice in the one run. -/
theorem C5_two_matches_both_persisted :
    exec demoConfig (initState demoConfig) raceSchedule = some raceFinal ∧
      raceFinal.saves = [(0, [1]), (1, [2])] ∧ ¬ raceFinal.saves.length ≤ 1 :=
  ⟨by decide, rfl, by decide⟩

/-- In every run `saveToFile` is called exactly once for each matching
candidate a worker generates, at most once by each worker, hence at most
`NumWorkers` times. -/
theorem saves_once_per_worker (cfg : Config) (evs : List Event) (st : State)
    (hexec : exec cfg (initState cfg) evs = some st) :
    st.saves = hitsOf cfg evs ∧ (st.saves.map Prod.fst).Nodup ∧
      (∀ p ∈ st.saves, p.1 < cfg.NumWorkers.toNat) ∧
      st.saves.length ≤ cfg.NumWorkers.toNat := by
  have h := inv_exec cfg evs st hexec
  have hlt : ∀ p ∈ st.saves, p.1 < cfg.NumWorkers.toNat := by
    intro p hp
    rw [← h.len]
    rcases h.savers p hp with hx | ⟨r, hx⟩
    · exact (List.getElem?_eq_some.1 hx).1
    · exact (List.getElem?_eq_some.1 hx).1
  refine ⟨h.saves, h.nodup, hlt, ?_⟩
  have := length_le_of_nodup_of_lt (st.saves.map Prod.fst) cfg.NumWorkers.toNat h.nodup
    (by
      intro x hx
      obtain ⟨p, hp, hpx⟩ := List.mem_map.1 hx
      exact hpx ▸ hlt p hp)
  simpa using this

/-- A hashrate tick less than one millisecond after `startTime` divides by zero. -/
theorem hashrate_none_of_lt (keys : Nat) (elapsed : Int) (h0 : 0 ≤ elapsed)
    (h1 : elapsed < 1000000) : hashrate keys elapsed = none := by
  have hm : Milliseconds elapsed = 0 := by
    unfold Milliseconds
    rw [Int.tdiv_eq_ediv h0 (by norm_num)]
    exact Int.ediv_eq_zero_of_lt h0 h1
  simp [hashrate, hm, toUint64]

/-- A hashrate tick at least one millisecond after `startTime` reports `keys / x`. -/
theorem hashrate_some_of_ge (keys : Nat) (elapsed : Int) (h1 : 1000000 ≤ elapsed)
    (h2 : elapsed < 2 ^ 63) :
    hashrate keys elapsed = some (keys / (elapsed / 1000000).toNat) := by
  have h0 : (0 : Int) ≤ elapsed := by omega
  have hm : Milliseconds elapsed = elapsed / 1000000 := by
    unfold Milliseconds
    rw [Int.tdiv_eq_ediv h0 (by norm_num)]
  have hpos : 1 ≤ elapsed / 1000000 := by omega
  have hlt : elapsed / 1000000 < 2 ^ 64 := by omega
  have hu : toUint64 (elapsed / 1000000) = (elapsed / 1000000).toNat := by
    unfold toUint64
    rw [Int.emod_eq_of_lt (by omega) hlt]
  have hne : (elapsed / 1000000).toNat ≠ 0 := by omega
  simp [hashrate, hm, hu, hne]

/-- C6, with `-timeout 1ms`: the hashrate ticker has period 166666 ns, at its
first tick `time.Since(startTime).Milliseconds()` is 0, and `keys / x` divides
by zero, whatever `keys` is; the panic ends the process. -/
theorem C6_hashrate_tick_divides_by_zero :
    Int.tdiv tinyTimeoutConfig.Timeout 6 = 166666 ∧
      toUint64 (Milliseconds 166666) = 0 ∧
      (∀ keys : Nat, hashrate keys 166666 = none) ∧
      (exec tinyTimeoutConfig (initState tinyTimeoutConfig)
        [Event.monitorStart, Event.hashTick 166666]).map (fun s => s.crashed) = some true :=
  ⟨by decide, by decide, fun _ => rfl, by decide⟩

/-- The list `strings.Split` returns is never empty. -/
theorem Split_ne_nil (sep : UInt8) (s : GoString) : Split sep s ≠ [] := by
  cases s with
  | nil => simp [Split]
  | cons c rest =>
    simp only [Split]
    split
    · simp
    · split <;> simp

/-- The suffix list `FastGeneration` searches with is never empty. -/
theorem FastGenerationConfig_suffixes_ne_nil (u : UnicodeLib) (numCPU timeout : Int)
    (suff : GoString) : (FastGenerationConfig u numCPU timeout suff).Suffixes ≠ [] :=
  Split_ne_nil 44 (TrimSpace u suff)

/-- C8, on the command lines `-fast -suff a,b` and `-fast -suff ,,,`: both pass
the check `len(*suff) >= 3` of `main`, and `FastGeneration` searches with the
suffixes `a`, `b` of one character, respectively with four empty suffixes. -/
theorem C8_length_check_is_on_the_whole_flag (u : UnicodeLib) (numCPU : Int) :
    main u numCPU shortSuffixFlags =
        MainAction.fastGeneration
          { NumWorkers := numCPU, Suffixes := [bytes "a", bytes "b"], Timeout := 600000000000 } ∧
      (∀ s ∈ [bytes "a", bytes "b"], s.length = 1) ∧
      main u numCPU emptySuffixFlags =
        MainAction.fastGeneration
          { NumWorkers := numCPU, Suffixes := [[], [], [], []], Timeout := 600000000000 } :=
  ⟨rfl, by decide, rfl⟩

theorem selectKeyType_eq_none_iff (u : UnicodeLib) (t : GoString) :
    selectKeyType u t = none ↔ ToLower u t ∉ keyTypeNames := by
  simp only [selectKeyType, keyTypeNames, List.mem_cons, List.mem_singleton, List.not_mem_nil,
    or_false, not_or]
  split_ifs <;> simp [*]

theorem genKey_of_none {u : UnicodeLib} (lib : KeyLib) {t : GoString} (size : Int)
    (h : selectKeyType u t = none) :
    genKey u lib t size =
      { err := some (GoError.errorf (bytes "unrecognized key type: " ++ t)), generated := [] } := by
  simp [genKey, h]

theorem genKey_of_some {u : UnicodeLib} (lib : KeyLib) {t : GoString} (size : Int)
    {atyp : KeyType} (h : selectKeyType u t = some atyp) :
    (genKey u lib t size).generated = [(atyp, size)] ∧
      ∀ msg, (genKey u lib t size).err ≠ some (GoError.errorf msg) := by
  simp only [genKey, h]
  cases lib.GenerateKeyPair atyp size with
  | error e => simp
  | ok kp =>
    obtain ⟨priv, pub⟩ := kp
    simp only
    cases lib.IDFromPublicKey pub with
    | error e => simp
    | ok pid =>
      simp only
      cases lib.MarshalPrivateKey priv with
      | error e => simp
      | ok data =>
        simp only
        cases lib.stdoutWrite data with
        | some e => simp
        | none =>
          simp only
          cases lib.stderrReport pid data <;> simp

/-- C9: `genKey` returns the error `unrecognized key type: t`, having called
`crp.GenerateKeyPair` not at all, exactly when the lower-cased `t` is none of
`rsa`, `ed25519`, `secp256k1`, `ecdsa`; for the other `t` it calls
`crp.GenerateKeyPair` once with the selected type and never returns that kind
of error. Upper-case spellings are accepted. When `main` reaches `genKey`
with an empty `-type`, it passes `ed25519`, which is accepted. -/
theorem C9_genKey_rejects_exactly_the_unknown_types (u : UnicodeLib) (lib : KeyLib) :
    (∀ (t : GoString) (size : Int),
        ((genKey u lib t size).err
              = some (GoError.errorf (bytes "unrecognized key type: " ++ t)) ∧
            (genKey u lib t size).generated = [] ↔ ToLower u t ∉ keyTypeNames) ∧
          (ToLower u t ∈ keyTypeNames →
            (∃ atyp, (genKey u lib t size).generated = [(atyp, size)]) ∧
              ∀ msg, (genKey u lib t size).err ≠ some (GoError.errorf msg))) ∧
      (selectKeyType u (bytes "RSA") = some KeyType.RSA ∧
        selectKeyType u (bytes "Ed25519") = some KeyType.Ed25519 ∧
        selectKeyType u (bytes "SECP256K1") = some KeyType.Secp256k1 ∧
        selectKeyType u (bytes "EcDsA") = some KeyType.ECDSA) ∧
      ∀ (numCPU : Int) (f : Flags) (t : GoString) (size : Int),
        main u numCPU f = MainAction.genKey t size → f.typ = [] →
          t = bytes "ed25519" ∧
            (genKey u lib t size).generated = [(KeyType.Ed25519, size)] ∧
            ∀ msg, (genKey u lib t size).err ≠ some (GoError.errorf msg) := by
  refine ⟨fun t size => ⟨⟨fun h hmem => ?_, fun h => ?_⟩, fun hmem => ?_⟩,
    ⟨rfl, rfl, rfl, rfl⟩, ?_⟩
  · cases hsel : selectKeyType u t with
    | none => exact (selectKeyType_eq_none_iff u t).1 hsel hmem
    | some atyp =>
      have := (genKey_of_some lib size hsel).1
      rw [h.2] at this
      simp at this
  · have hsel := (selectKeyType_eq_none_iff u t).2 h
    rw [genKey_of_none lib size hsel]
    exact ⟨rfl, rfl⟩
  · cases hsel : selectKeyType u t with
    | none => exact absurd hmem ((selectKeyType_eq_none_iff u t).1 hsel)
    | some atyp => exact ⟨⟨atyp, (genKey_of_some lib size hsel).1⟩, (genKey_of_some lib size hsel).2⟩
  · intro numCPU f t size hmain htyp
    unfold main at hmain
    split at hmain
    · simp at hmain
    · split at hmain
      · simp at hmain
      · simp only [htyp, if_true, MainAction.genKey.injEq] at hmain
        obtain ⟨ht, _⟩ := hmain
        subst ht
        have hsel : selectKeyType u (bytes "ed25519") = some KeyType.Ed25519 := rfl
        exact ⟨rfl, genKey_of_some lib size hsel⟩

theorem C9_witness :
    main asciiOnly 4 defaultFlags = MainAction.genKey (bytes "ed25519") 2048 ∧
      (bytes "ed25519" = bytes "ed25519" ∧
        (genKey asciiOnly failingLib (bytes "ed25519") 2048).generated
          = [(KeyType.Ed25519, 2048)] ∧
        ∀ msg, (genKey asciiOnly failingLib (bytes "ed25519") 2048).err
          ≠ some (GoError.errorf msg)) :=
  ⟨by decide,
    (C9_genKey_rejects_exactly_the_unknown_types asciiOnly failingLib).2.2 4 defaultFlags
      (bytes "ed25519") 2048 (by decide) rfl⟩

theorem set_same (ws : List WState) (i : Nat) (w : WState) (h : ws[i]? = some w) :
    ws.set i w = ws := by
  apply List.ext_getElem?
  intro j
  rw [List.getElem?_set]
  by_cases hij : i = j
  · subst hij
    rw [if_pos rfl, if_pos (List.getElem?_eq_some.1 h).1, h]
  · rw [if_neg hij]

theorem iterations_append (i : Nat) (xs ys : List GenOutcome) :
    iterations i (xs ++ ys) = iterations i xs ++ iterations i ys := by
  induction xs with
  | nil => rfl
  | cons x xs ih => simp [iterations, ih]

theorem successes_append_ok (xs : List GenOutcome) (data : List UInt8) (s : GoString) :
    successes (xs ++ [GenOutcome.ok data s]) = successes xs + 1 := by
  induction xs with
  | nil => rfl
  | cons x xs ih => cases x <;> simp [successes, ih]

/-- The effect of every event on the counter `keys`. -/
theorem step_keys {cfg : Config} {st st' : State} {ev : Event}
    (hs : step cfg st ev = some st') :
    st'.keys = if isMiss cfg ev = true then (st.keys + 1) % 2 ^ 64 else st.keys := by
  unfold step at hs
  split at hs
  · simp at hs
  · cases ev with
    | monitorStart =>
      simp only at hs
      split at hs
      · split at hs <;> (simp only [Option.some.injEq] at hs; subst hs; simp [isMiss])
      · simp at hs
    | hashTick elapsed =>
      simp only at hs
      split at hs
      · split at hs <;> (simp only [Option.some.injEq] at hs; subst hs; simp [isMiss])
      · simp at hs
    | timeout =>
      simp only at hs
      split at hs
      · simp only [Option.some.injEq] at hs; subst hs; simp [isMiss]
      · simp at hs
    | check j =>
      simp only at hs
      split at hs
      · simp only [Option.some.injEq] at hs; subst hs; simp [isMiss]
      · simp at hs
    | gen j o =>
      simp only at hs
      split at hs
      · simp only [Option.some.injEq] at hs; subst hs
        cases o <;> simp only [workerDefault, isMiss] <;> try simp
        split <;> simp [*]
      · simp at hs
    | recv j =>
      simp only at hs
      split at hs
      · simp only [Option.some.injEq] at hs; subst hs; simp [isMiss]
      · simp at hs
    | close =>
      simp only at hs
      split at hs
      · simp only [Option.some.injEq] at hs; subst hs; simp [isMiss]
      · simp at hs
    | recvClosed =>
      simp only at hs
      split at hs
      · simp only [Option.some.injEq] at hs; subst hs; simp [isMiss]
      · simp at hs

/-- Worker `i` alone, not cancelled, running through outcomes without a match:
it is back at its `select` and `keys` has grown by the number of candidates. -/
theorem exec_iterations (cfg : Config) (i : Nat) :
    ∀ (pre : List GenOutcome) (st : State), st.crashed = false → st.cancelled = false →
      st.workers[i]? = some WState.atSelect → pre.all (noHit cfg) = true →
      ∃ st', exec cfg st (iterations i pre) = some st' ∧ st'.crashed = false ∧
        st'.cancelled = false ∧ st'.workers = st.workers ∧ st'.saves = st.saves ∧
        (st.keys + successes pre) % 2 ^ 64 = st'.keys % 2 ^ 64 ∧
        (st.keys < 2 ^ 64 → st'.keys < 2 ^ 64) := by
  intro pre
  induction pre with
  | nil =>
    intro st hcr hca hi _
    exact ⟨st, rfl, hcr, hca, rfl, rfl, rfl, fun h => h⟩
  | cons o pre ih =>
    intro st hcr hca hi hall
    simp only [List.all_cons, Bool.and_eq_true] at hall
    obtain ⟨ho, hall⟩ := hall
    obtain ⟨ca, ws, ks, sv, mo, cl, co, de, cr⟩ := st
    simp only at hcr hca hi
    subst hcr
    subst hca
    have hlt : i < ws.length := (List.getElem?_eq_some.1 hi).1
    have hback : (ws.set i WState.inDefault).set i WState.atSelect = ws := by
      rw [List.set_set]
      exact set_same _ _ _ hi
    have hmid : (ws.set i WState.inDefault)[i]? = some WState.inDefault :=
      List.getElem?_set_self hlt
    have hsame : exec cfg ⟨false, ws, ks, sv, mo, cl, co, de, false⟩
        (iterations i (o :: pre)) =
        exec cfg (workerDefault cfg ⟨false, ws.set i WState.inDefault, ks, sv, mo, cl, co, de, false⟩
          i o) (iterations i pre) := by
      simp [iterations, exec, step, hi, workerSelect, hmid]
    rw [hsame]
    cases o with
    | fault => simp [noHit] at ho
    | ok data s =>
      simp only [noHit, Bool.not_eq_true'] at ho
      simp only [workerDefault, ho, hback]
      obtain ⟨st', he, h1, h2, h3, h4, h5, h6⟩ :=
        ih ⟨false, ws, (ks + 1) % 2 ^ 64, sv, mo, cl, co, de, false⟩ rfl rfl hi hall
      refine ⟨st', he, h1, h2, h3, h4, ?_, fun _ => h6 (Nat.mod_lt _ (by norm_num))⟩
      rw [← h5]
      simp only [successes]
      omega
    | keyErr =>
      simp only [workerDefault, hback]
      obtain ⟨st', he, h1, h2, h3, h4, h5, h6⟩ :=
        ih ⟨false, ws, ks, sv, mo, cl, co, de, false⟩ rfl rfl hi hall
      exact ⟨st', he, h1, h2, h3, h4, by simpa [successes] using h5, h6⟩
    | idErr =>
      simp only [workerDefault, hback]
      obtain ⟨st', he, h1, h2, h3, h4, h5, h6⟩ :=
        ih ⟨false, ws, ks, sv, mo, cl, co, de, false⟩ rfl rfl hi hall
      exact ⟨st', he, h1, h2, h3, h4, by simpa [successes] using h5, h6⟩
    | cidErr =>
      simp only [workerDefault, hback]
      obtain ⟨st', he, h1, h2, h3, h4, h5, h6⟩ :=
        ih ⟨false, ws, ks, sv, mo, cl, co, de, false⟩ rfl rfl hi hall
      exact ⟨st', he, h1, h2, h3, h4, by simpa [successes] using h5, h6⟩
    | baseErr =>
      simp only [workerDefault, hback]
      obtain ⟨st', he, h1, h2, h3, h4, h5, h6⟩ :=
        ih ⟨false, ws, ks, sv, mo, cl, co, de, false⟩ rfl rfl hi hall
      exact ⟨st', he, h1, h2, h3, h4, by simpa [successes] using h5, h6⟩

/-- C7: the counter counts unsuccessful attempts only. A pass of a worker
through its `default:` branch adds one to `keys` (a `uint64`) when all calls
succeed and the candidate matches no suffix, and leaves `keys` unchanged when
the candidate matches or a call fails; the `select` leaves it unchanged. After
any schedule `keys` is the number of non-matching candidates generated. A
worker running alone whose `k`-th generated candidate is its first match ends
blocked sending that match with `keys = k - 1`. -/
theorem C7_counter_counts_unsuccessful_attempts (cfg : Config) :
    (∀ st st' i data s, step cfg st (Event.gen i (GenOutcome.ok data s)) = some st' →
        (matchSuffixes s cfg.Suffixes = false → st'.keys = (st.keys + 1) % 2 ^ 64) ∧
          (matchSuffixes s cfg.Suffixes = true → st'.keys = st.keys)) ∧
      (∀ st st' i o, step cfg st (Event.gen i o) = some st' →
        (∀ data s, o ≠ GenOutcome.ok data s) → st'.keys = st.keys) ∧
      (∀ st st' i, step cfg st (Event.check i) = some st' → st'.keys = st.keys) ∧
      (∀ evs st, exec cfg (initState cfg) evs = some st →
        st.keys = missCount cfg evs % 2 ^ 64) ∧
      ∀ i pre data s k, i < cfg.NumWorkers.toNat → pre.all (noHit cfg) = true →
        matchSuffixes s cfg.Suffixes = true →
        successes (pre ++ [GenOutcome.ok data s]) = k →
        ∃ st, exec cfg (initState cfg) (iterations i (pre ++ [GenOutcome.ok data s])) = some st ∧
          st.workers[i]? = some (WState.sending (foundResult i s)) ∧
          st.keys = (k - 1) % 2 ^ 64 ∧ (k ≤ 2 ^ 64 → st.keys = k - 1) := by
  refine ⟨?_, ?_, ?_, fun evs st h => (inv_exec cfg evs st h).keys, ?_⟩
  · intro st st' i data s hs
    have hk := step_keys hs
    simp only [isMiss, Bool.not_eq_true'] at hk
    constructor
    · intro hm; rw [hk, if_pos hm]
    · intro hm; rw [hk, if_neg (by simp [hm])]
  · intro st st' i o hs ho
    have hk := step_keys hs
    cases o with
    | ok data s => exact absurd rfl (ho data s)
    | _ => simpa [isMiss] using hk
  · intro st st' i hs
    simpa [isMiss] using step_keys hs
  · intro i pre data s k hi hall hm hk
    have hinit : (initState cfg).workers[i]? = some WState.atSelect := by
      simp [initState, List.getElem?_replicate, hi]
    obtain ⟨st', he, h1, h2, h3, _, h5, h6⟩ :=
      exec_iterations cfg i pre (initState cfg) rfl rfl hinit hall
    obtain ⟨ca, ws, ks, sv, mo, cl, co, de, cr⟩ := st'
    simp only at h1 h2 h3 h5 h6
    subst h1
    subst h2
    subst h3
    have hlt : i < (initState cfg).workers.length := (List.getElem?_eq_some.1 hinit).1
    have hks : ks = successes pre % 2 ^ 64 := by
      have hlt64 : ks < 2 ^ 64 := h6 (by simp [initState])
      have h0 : (initState cfg).keys = 0 := rfl
      rw [h0, Nat.zero_add, Nat.mod_eq_of_lt hlt64] at h5
      exact h5.symm
    have hk1 : k - 1 = successes pre := by
      rw [successes_append_ok] at hk
      omega
    refine ⟨⟨true, ((initState cfg).workers.set i WState.inDefault).set i
      (WState.sending (foundResult i s)), ks, sv ++ [(i, data)], mo, cl, co, de, false⟩,
      ?_, ?_, ?_, ?_⟩
    · rw [iterations_append, exec_append, he]
      simp only [Option.some_bind, iterations, exec, step, hinit, workerSelect]
      simp only [Bool.false_eq_true, if_false, List.getElem?_set_self hlt, Option.some_bind,
        workerDefault, hm, if_true]
    · simp only [List.set_set, List.getElem?_set_self hlt]
    · simp only [hks, hk1]
    · intro hle
      simp only [hks, hk1]
      exact Nat.mod_eq_of_lt (by omega)

theorem C7_witness :
    (0 < demoConfig.NumWorkers.toNat ∧ nineMisses.all (noHit demoConfig) = true ∧
        matchSuffixes (bytes "xyzabc") demoConfig.Suffixes = true ∧
        successes (nineMisses ++ [GenOutcome.ok [10] (bytes "xyzabc")]) = 10) ∧
      ∃ st, exec demoConfig (initState demoConfig)
          (iterations 0 (nineMisses ++ [GenOutcome.ok [10] (bytes "xyzabc")])) = some st ∧
        st.workers[0]? = some (WState.sending (foundResult 0 (bytes "xyzabc"))) ∧
        st.keys = (10 - 1) % 2 ^ 64 ∧ (10 ≤ 2 ^ 64 → st.keys = 10 - 1) :=
  ⟨⟨by decide, by decide, by decide, by decide⟩,
    (C7_counter_counts_unsuccessful_attempts demoConfig).2.2.2.2 0 nineMisses [10]
      (bytes "xyzabc") 10 (by decide) (by decide) (by decide) (by decide)⟩

/-- Cancellation is checked first. When the context is cancelled and worker `i`
is at its `select`, the generator cannot run; the `select` takes the
`ctx.Done()` case and the worker blocks sending `Result{Cancelled: true}`
(`Found` false), with `keys` and the `saveToFile` calls unchanged. From there
the only event of worker `i` is the delivery of that one value, possible
whenever `run` is receiving, after which the worker has exited and has no
further event. In every run `run` receives at most one value from each worker. -/
theorem cancelled_select_offers_ack (cfg : Config) (st : State) (i : Nat)
    (hcrash : st.crashed = false) (hcanc : st.cancelled = true)
    (hi : st.workers[i]? = some WState.atSelect) :
    (∀ o, step cfg st (Event.gen i o) = none) ∧
      (∃ st1, step cfg st (Event.check i) = some st1 ∧
        st1.workers[i]? = some (WState.sending cancelledResult) ∧
        st1.keys = st.keys ∧ st1.saves = st.saves ∧
        (∀ o, step cfg st1 (Event.gen i o) = none) ∧
        step cfg st1 (Event.check i) = none ∧
        (st1.coord = Coord.receiving → ∃ st2, step cfg st1 (Event.recv i) = some st2) ∧
        ∀ st2, step cfg st1 (Event.recv i) = some st2 →
          st2.workers[i]? = some WState.exited ∧
          st2.delivered = st.delivered ++ [cancelledResult] ∧
          st2.keys = st.keys ∧ st2.saves = st.saves ∧
          (∀ o, step cfg st2 (Event.gen i o) = none) ∧
          step cfg st2 (Event.check i) = none ∧
          step cfg st2 (Event.recv i) = none) ∧
      (cancelledResult.Cancelled = true ∧ cancelledResult.Found = false) ∧
      ∀ evs st' j, exec cfg (initState cfg) evs = some st' → recvCount j evs ≤ 1 := by
  obtain ⟨ca, ws, ks, sv, mo, cl, co, de, cr⟩ := st
  simp only at hcrash hcanc hi
  subst hcrash
  subst hcanc
  have hlt : i < ws.length := (List.getElem?_eq_some.1 hi).1
  have h1 : (ws.set i (WState.sending cancelledResult))[i]?
      = some (WState.sending cancelledResult) := List.getElem?_set_self hlt
  have h2 : ((ws.set i (WState.sending cancelledResult)).set i WState.exited)[i]?
      = some WState.exited := by
    rw [List.set_set]
    exact List.getElem?_set_self hlt
  refine ⟨fun o => by simp [step, hi], ⟨⟨true, ws.set i (WState.sending cancelledResult), ks, sv,
    mo, cl, co, de, false⟩, by simp [step, hi, workerSelect], h1, rfl, rfl,
    fun o => by simp [step, h1], by simp [step, h1], ?_, ?_⟩, ⟨rfl, rfl⟩,
    fun evs st' j h => ((inv_exec cfg evs st' h).once j).1⟩
  · intro hco
    simp only at hco
    subst hco
    exact ⟨_, by simp only [step, h1]; rfl⟩
  · intro st2 hs
    cases co with
    | returned out => simp [step] at hs
    | receiving =>
      simp only [step, h1, Bool.false_eq_true, if_false, Option.some.injEq] at hs
      subst hs
      refine ⟨h2, rfl, rfl, rfl, fun o => ?_, ?_, ?_⟩
      · simp only [step, h2, Bool.false_eq_true, if_false]
      · simp only [step, h2, Bool.false_eq_true, if_false]
      · simp only [step, h2, Bool.false_eq_true, if_false]
        split
        · rename_i hx
          simp at hx
        · rfl

/-- Once `run` has returned it receives nothing more: no event changes its
outcome or the list of values it has received. -/
theorem returned_step {cfg : Config} {st st' : State} {ev : Event} {out : RunOutcome}
    (hco : st.coord = Coord.returned out) (hs : step cfg st ev = some st') :
    st'.coord = Coord.returned out ∧ st'.delivered = st.delivered := by
  unfold step at hs
  split at hs
  · simp at hs
  · cases ev with
    | monitorStart =>
      simp only at hs
      split at hs
      · split at hs <;> (simp only [Option.some.injEq] at hs; subst hs; exact ⟨hco, rfl⟩)
      · simp at hs
    | hashTick elapsed =>
      simp only at hs
      split at hs
      · split at hs <;> (simp only [Option.some.injEq] at hs; subst hs; exact ⟨hco, rfl⟩)
      · simp at hs
    | timeout =>
      simp only at hs
      split at hs
      · simp only [Option.some.injEq] at hs; subst hs; exact ⟨hco, rfl⟩
      · simp at hs
    | check j =>
      simp only at hs
      split at hs
      · simp only [Option.some.injEq] at hs; subst hs; exact ⟨hco, rfl⟩
      · simp at hs
    | gen j o =>
      simp only at hs
      split at hs
      · simp only [Option.some.injEq] at hs; subst hs
        cases o with
        | ok data s =>
          simp only [workerDefault]
          split <;> exact ⟨hco, rfl⟩
        | _ => exact ⟨hco, rfl⟩
      · simp at hs
    | recv j =>
      simp only at hs
      split at hs
      · rename_i hrec _
        rw [hco] at hrec
        simp at hrec
      · simp at hs
    | close =>
      simp only at hs
      split at hs
      · simp only [Option.some.injEq] at hs; subst hs; exact ⟨hco, rfl⟩
      · simp at hs
    | recvClosed =>
      simp only at hs
      split at hs
      · rename_i hg
        rw [hco] at hg
        simp at hg
      · simp at hs

theorem returned_forever {cfg : Config} {out : RunOutcome} :
    ∀ (evs : List Event) (st st' : State), st.coord = Coord.returned out →
      exec cfg st evs = some st' →
      st'.coord = Coord.returned out ∧ st'.delivered = st.delivered := by
  intro evs
  induction evs with
  | nil =>
    intro st st' hco h
    simp only [exec, Option.some.injEq] at h
    subst h
    exact ⟨hco, rfl⟩
  | cons ev evs ih =>
    intro st st' hco h
    simp only [exec] at h
    cases hmid : step cfg st ev with
    | none => rw [hmid] at h; simp at h
    | some mid =>
      rw [hmid] at h
      obtain ⟨hco', hd⟩ := returned_step hco hmid
      obtain ⟨hco'', hd'⟩ := ih mid st' hco' h
      exact ⟨hco'', hd'.trans hd⟩

/-- C10, on the run `postFoundSchedule` of two workers: `run` has returned worker
0's `Found` result, the context is cancelled and worker 1 is at the start of
an iteration. Its `select` takes the `ctx.Done()` case, without a generator
call, a change of `keys` or a `saveToFile` call, and the worker reaches
`resultChan <- Result{Cancelled: true}`. That value is never delivered and
the worker never exits: `run` cannot receive it, and in every continuation the
worker is still blocked in the send and `run` has received nothing more. -/
theorem C10_cancelled_worker_blocks_after_found_return :
    exec demoConfig (initState demoConfig) postFoundSchedule = some postFoundAtSelect ∧
      (postFoundAtSelect.cancelled = true ∧ postFoundAtSelect.crashed = false ∧
        postFoundAtSelect.workers[1]? = some WState.atSelect) ∧
      (∀ o, step demoConfig postFoundAtSelect (Event.gen 1 o) = none) ∧
      step demoConfig postFoundAtSelect (Event.check 1) = some postFoundBlocked ∧
      (postFoundBlocked.workers[1]? = some (WState.sending cancelledResult) ∧
        postFoundBlocked.keys = postFoundAtSelect.keys ∧
        postFoundBlocked.saves = postFoundAtSelect.saves) ∧
      step demoConfig postFoundBlocked (Event.recv 1) = none ∧
      ∀ evs st, exec demoConfig postFoundBlocked evs = some st →
        st.workers[1]? = some (WState.sending cancelledResult) ∧
          st.delivered = [foundResult 0 (bytes "xyzabc")] :=
  ⟨by decide, ⟨rfl, rfl, rfl⟩, fun o => rfl, by decide, ⟨rfl, rfl, rfl⟩, by decide,
    fun evs st h =>
      ⟨(blocked_forever evs postFoundBlocked st rfl rfl h).2,
        (returned_forever evs postFoundBlocked st rfl h).2⟩⟩

end IpfsKeygen
